import Mathlib

/-!
Shallow embedding of the verlet-cloth simulation engine (src/main.js and its
typed variant src/unnamed/part_001; the two variants implement the same
functions line for line).

Modelling choices:
* Coordinates are exact rationals.  Where the JavaScript code can produce
  non-finite IEEE values by dividing by zero — the segment-intersection test —
  the embedding uses the `JSNum` type below, which models the result of a
  JavaScript division of finite operands (NaN and the two infinities
  included) together with the comparison operators applied to it.
* `Math.sqrt` is irrational in general, so every operation that uses it takes
  the square-root function as an explicit parameter `sqrtFn`.  Concrete
  evaluations use `ratSqrt`, an exact model of `Math.sqrt` on perfect-square
  rationals; no theorem below depends on a square-root value outside that
  domain.
* JavaScript object identity of points is modelled by an `id` field assigned
  at construction (the index the point is pushed at), the arena encoding: a
  join stores the ids of its two endpoints, and `p === q` becomes id
  equality.  Joins are compared structurally; the joins a model builds are
  pairwise structurally distinct, so this coincides with object identity on
  states the program reaches.
-/

namespace VerletCloth

/-- Difference of two 2-d vectors, from `difference` in the source. -/
def difference (p0 p1 : ℚ × ℚ) : ℚ × ℚ := (p0.1 - p1.1, p0.2 - p1.2)

/-- Scalar length of a vector, from `length` / `pointLength` in the source:
`Math.sqrt(x*x + y*y)` with the square-root function supplied explicitly. -/
def pointLength (sqrtFn : ℚ → ℚ) (p : ℚ × ℚ) : ℚ := sqrtFn (p.1 * p.1 + p.2 * p.2)

/-- The 2×2 determinant `a*d - b*c`, from `det` in the source. -/
def det (a b c d : ℚ) : ℚ := a * d - b * c

/-- Exact integer square root (largest `k` with `k*k ≤ n`), used to model
`Math.sqrt` on perfect squares. -/
def isqrt (n : ℕ) : ℕ := ((List.range (n + 1)).filter (fun k => k * k ≤ n)).foldl max 0

/-- Exact model of `Math.sqrt` on perfect-square nonnegative rationals (the
only inputs at which any theorem in this file depends on a square-root
value). -/
def ratSqrt (q : ℚ) : ℚ := (isqrt q.num.toNat : ℚ) / (isqrt q.den : ℚ)

/-- Result of a JavaScript floating-point division whose operands are finite:
either a finite value, NaN, or one of the two infinities. -/
inductive JSNum where
  | num (q : ℚ)
  | nan
  | inf
  | ninf
deriving DecidableEq

/-- JavaScript division of finite operands: `n / 0` is NaN when `n = 0` and a
signed infinity otherwise; any other division is finite. -/
def jsDiv (n d : ℚ) : JSNum :=
  if d = 0 then (if n = 0 then JSNum.nan else if 0 < n then JSNum.inf else JSNum.ninf)
  else JSNum.num (n / d)

/-- True exactly on the finite values of `JSNum`. -/
def JSNum.isFinite : JSNum → Bool
  | JSNum.num _ => true
  | JSNum.nan => false
  | JSNum.inf => false
  | JSNum.ninf => false

/-- The JavaScript comparison `a <= v` for finite `a`: false when `v` is NaN,
true when `v` is `+Infinity`, false when `v` is `-Infinity`. -/
def jsLe (a : ℚ) (v : JSNum) : Bool :=
  match v with
  | JSNum.num q => a ≤ q
  | JSNum.nan => false
  | JSNum.inf => true
  | JSNum.ninf => false

/-- The JavaScript comparison `a >= v` for finite `a`: false when `v` is NaN,
false when `v` is `+Infinity`, true when `v` is `-Infinity`. -/
def jsGe (a : ℚ) (v : JSNum) : Bool :=
  match v with
  | JSNum.num q => q ≤ a
  | JSNum.nan => false
  | JSNum.inf => false
  | JSNum.ninf => true

/-- The x coordinate computed by `lineIntersectsLine` (the `const x`). -/
def intersectionX (x1 y1 x2 y2 x3 y3 x4 y4 : ℚ) : JSNum :=
  jsDiv (det (det x1 y1 x2 y2) (x1 - x2) (det x3 y3 x4 y4) (x3 - x4))
        (det (x1 - x2) (y1 - y2) (x3 - x4) (y3 - y4))

/-- The y coordinate computed by `lineIntersectsLine` (the `const y`). -/
def intersectionY (x1 y1 x2 y2 x3 y3 x4 y4 : ℚ) : JSNum :=
  jsDiv (det (det x1 y1 x2 y2) (y1 - y2) (det x3 y3 x4 y4) (y3 - y4))
        (det (x1 - x2) (y1 - y2) (x3 - x4) (y3 - y4))

/-- The segment-intersection test `lineIntersectsLine` from the source:
computes the line-intersection point by the determinant formula and then
checks it against both segments' bounding boxes, inclusively. -/
def lineIntersectsLine (x1 y1 x2 y2 x3 y3 x4 y4 : ℚ) : Bool :=
  let x := intersectionX x1 y1 x2 y2 x3 y3 x4 y4
  let y := intersectionY x1 y1 x2 y2 x3 y3 x4 y4
  jsLe (min x1 x2) x && jsGe (max x1 x2) x &&
  jsLe (min x3 x4) x && jsGe (max x3 x4) x &&
  jsLe (min y1 y2) y && jsGe (max y1 y2) y &&
  jsLe (min y3 y4) y && jsGe (max y3 y4) y

/-- A mass node: current position `(x, y)`, previous position `(px, py)`, the
`isFixed` flag, and the arena id standing for JavaScript object identity. -/
structure Point where
  id : ℕ
  x : ℚ
  y : ℚ
  px : ℚ
  py : ℚ
  isFixed : Bool
deriving DecidableEq

instance : Inhabited Point := ⟨⟨0, 0, 0, 0, 0, false⟩⟩

/-- A distance constraint (join): the ids of its two endpoints and its rest
length (the `length` property set by `makeJoin`). -/
structure Join where
  fromId : ℕ
  toId : ℕ
  length : ℚ
deriving DecidableEq

/-- The whole mutable model state: the `points` and `joins` arrays. -/
structure Topology where
  points : List Point
  joins : List Join
deriving DecidableEq

/-- The point created for grid cell `(r, c)`: position
`(c/(width-1), r/(height-1))`, previous position equal to it, fixed exactly
on row 0, id equal to the index `r*width + c` it is pushed at. -/
def makePoint (w h r c : ℕ) : Point :=
  { id := r * w + c
    x := (c : ℚ) / ((w : ℚ) - 1)
    y := (r : ℚ) / ((h : ℚ) - 1)
    px := (c : ℚ) / ((w : ℚ) - 1)
    py := (r : ℚ) / ((h : ℚ) - 1)
    isFixed := r == 0 }

/-- The point-construction loops of `makeModel`: row-major push of the grid
points. -/
def makePoints (w h : ℕ) : List Point :=
  (List.range h).flatMap (fun r => (List.range w).map (fun c => makePoint w h r c))

/-- `pointByPosition` from the source: `points[r * width + c]`. -/
def pointByPosition (w : ℕ) (pts : List Point) (r c : ℕ) : Point :=
  pts.getD (r * w + c) default

/-- `makeJoin` from the source: records the endpoints (by identity) and the
Euclidean distance between their current positions as the rest length. -/
def makeJoin (sqrtFn : ℚ → ℚ) (a b : Point) : Join :=
  { fromId := a.id
    toId := b.id
    length := pointLength sqrtFn (difference (a.x, a.y) (b.x, b.y)) }

/-- The join-construction loops of `makeModel`: for each row `r` and column
`c < width-1`, the horizontal join `(r,c)→(r,c+1)` followed, when
`r < height-1`, by the cell's diagonal join (`(r,c)→(r+1,c+1)` when `(r+c)`
is odd, `(r,c+1)→(r+1,c)` otherwise); then, column-major, the vertical joins
`(r,c)→(r+1,c)`. -/
def makeJoins (sqrtFn : ℚ → ℚ) (w h : ℕ) (pts : List Point) : List Join :=
  ((List.range h).flatMap (fun r => (List.range (w - 1)).flatMap (fun c =>
      makeJoin sqrtFn (pointByPosition w pts r c) (pointByPosition w pts r (c + 1)) ::
      (if r < h - 1 then
        [if (r + c) % 2 = 1 then
           makeJoin sqrtFn (pointByPosition w pts r c) (pointByPosition w pts (r + 1) (c + 1))
         else
           makeJoin sqrtFn (pointByPosition w pts r (c + 1)) (pointByPosition w pts (r + 1) c)]
       else []))))
  ++ (List.range w).flatMap (fun c => (List.range (h - 1)).map (fun r =>
      makeJoin sqrtFn (pointByPosition w pts r c) (pointByPosition w pts (r + 1) c)))

/-- `makeModel` from the source: builds the grid points and then the joins.
The source performs no validation of the dimensions. -/
def makeModel (sqrtFn : ℚ → ℚ) (w h : ℕ) : Topology :=
  { points := makePoints w h
    joins := makeJoins sqrtFn w h (makePoints w h) }

/-- `ITERATIONS` / `NUM_SIMULATION_ITERATIONS` from the source. -/
def ITERS : ℕ := 2

/-- The Verlet integration step applied to one particle inside `tick`: fixed
particles are skipped (`continue`); otherwise
`newPosition = 2·position − previousPosition + force·dt²` and the previous
position becomes the pre-update position. -/
def integrate (dt forceX forceY : ℚ) (p : Point) : Point :=
  if p.isFixed then p
  else
    { p with
      x := 2 * p.x - p.px + forceX * (dt * dt)
      y := 2 * p.y - p.py + forceY * (dt * dt)
      px := p.x
      py := p.y }

/-- Adds `(dx, dy)` to the position of the point with id `i` (the mutation of
a point object through a join's reference). -/
def movePoint (pts : List Point) (i : ℕ) (dx dy : ℚ) : List Point :=
  pts.map (fun q => if q.id = i then { q with x := q.x + dx, y := q.y + dy } else q)

/-- Resolves a join's endpoint reference in the current point arena. -/
def findPoint (pts : List Point) (i : ℕ) : Option Point :=
  pts.find? (fun q => q.id = i)

/-- One constraint correction inside the relaxation loop of `tick`:
`factor = (restLength − currentLength) / currentLength / 2`,
`offset = diff · factor`; the offset is added to a non-fixed `from` endpoint
and subtracted from a non-fixed `to` endpoint. -/
def relaxJoin (sqrtFn : ℚ → ℚ) (pts : List Point) (j : Join) : List Point :=
  match findPoint pts j.fromId, findPoint pts j.toId with
  | some a, some b =>
      let diff := difference (a.x, a.y) (b.x, b.y)
      let diffLen := pointLength sqrtFn diff
      let factor := (j.length - diffLen) / diffLen / 2
      let offX := diff.1 * factor
      let offY := diff.2 * factor
      let pts1 := if a.isFixed then pts else movePoint pts j.fromId offX offY
      if b.isFixed then pts1 else movePoint pts1 j.toId (-offX) (-offY)
  | _, _ => pts

/-- One pass of the inner `for (const join of joins)` loop: every join is
visited in stored order, each correction reading the already-updated
positions. -/
def relaxPass (sqrtFn : ℚ → ℚ) (pts : List Point) (joins : List Join) : List Point :=
  joins.foldl (relaxJoin sqrtFn) pts

/-- `tick` from the source: the time step is clamped to at most `1/30`, one
force vector `(rand·0.1, 0.8)` is sampled for the whole frame (`rand` stands
for the `Math.random()` sample), every non-fixed particle is integrated, and
then `ITERS` relaxation passes run over the joins. -/
def tick (sqrtFn : ℚ → ℚ) (t : Topology) (dt rand : ℚ) : Topology :=
  let dtc := min dt (1 / 30)
  let forceX := rand * 0.1
  let forceY : ℚ := 0.8
  let pts1 := t.points.map (integrate dtc forceX forceY)
  let pts2 := (List.range ITERS).foldl (fun acc _ => relaxPass sqrtFn acc t.joins) pts1
  { t with points := pts2 }

/-- `removePoint` from the source: deletes the point and every join whose
`from` or `to` is that point. -/
def removePoint (t : Topology) (p : Point) : Topology :=
  { points := t.points.filter (fun each => each.id ≠ p.id)
    joins := t.joins.filter (fun each => each.fromId ≠ p.id && each.toId ≠ p.id) }

/-- Models the JavaScript expression `point in pointsToDelete` from
`removeJoin`: the `in` operator tests property keys of its right operand, and
an object left operand coerces to the key string "[object Object]", which is
never a key of an array of point objects — the test is always false,
whatever the array holds. -/
def jsInArray (p : Point) (arr : List Point) : Bool := false

/-- `removeJoin` from the source, modelled verbatim: the join is filtered
out; `pointsUsingJoin` collects the points the removed join references;
`pointsToDelete` keeps those of them whose reference count over the remaining
joins is **not** zero (the `!== 0` in the source); and the final filter tests
membership with the JavaScript `in` operator (see `jsInArray`). -/
def removeJoin (t : Topology) (j : Join) : Topology :=
  let joins1 := t.joins.filter (fun each => each ≠ j)
  let pointsUsingJoin := t.points.filter (fun p => p.id = j.fromId || p.id = j.toId)
  let pointsToDelete := pointsUsingJoin.filter (fun p =>
    (joins1.foldl (fun count jn => if jn.fromId = p.id || jn.toId = p.id then count + 1 else count) 0) ≠ 0)
  { points := t.points.filter (fun p => !(jsInArray p pointsToDelete))
    joins := joins1 }

/-- An operation the host can apply to the topology: a simulation step or one
of the two tear primitives. -/
inductive Op where
  | tick (dt rand : ℚ)
  | removeJoin (j : Join)
  | removePoint (p : Point)

/-- Applies one operation. -/
def applyOp (sqrtFn : ℚ → ℚ) (t : Topology) : Op → Topology
  | Op.tick dt rand => tick sqrtFn t dt rand
  | Op.removeJoin j => removeJoin t j
  | Op.removePoint p => removePoint t p

/-- Applies a sequence of operations in order. -/
def applyOps (sqrtFn : ℚ → ℚ) (ops : List Op) (t : Topology) : Topology :=
  ops.foldl (applyOp sqrtFn) t

/-- Frame relation between a point record before a `tick` and the
corresponding record after it: the identity and the fixed flag are preserved,
and a fixed point's record is completely untouched — only the coordinate
fields of non-fixed points may differ. -/
def FrameR (p q : Point) : Prop :=
  q.id = p.id ∧ q.isFixed = p.isFixed ∧ (p.isFixed = true → q = p)

/-- The endpoint-id pairs of a join list, in stored order. -/
def endpointPairs (js : List Join) : List (ℕ × ℕ) :=
  js.map (fun j => (j.fromId, j.toId))

/-- Modelled from the spec (§4.1, claim C3): the order the spec claims the
constraints are stored in — first all horizontal joins row by row, then all
diagonal joins, then all vertical joins.  Used only for comparison with the
order the code actually builds. -/
def specOrderPairs (w h : ℕ) : List (ℕ × ℕ) :=
  (List.range h).flatMap (fun r => (List.range (w - 1)).map (fun c =>
    (r * w + c, r * w + c + 1)))
  ++ (List.range (h - 1)).flatMap (fun r => (List.range (w - 1)).map (fun c =>
    if (r + c) % 2 = 1 then (r * w + c, (r + 1) * w + (c + 1))
    else (r * w + (c + 1), (r + 1) * w + c)))
  ++ (List.range w).flatMap (fun c => (List.range (h - 1)).map (fun r =>
    (r * w + c, (r + 1) * w + c)))

/-- The endpoint-id pairs in the order `makeModel` actually pushes the joins:
per row, horizontal and diagonal joins interleaved cell by cell, and then the
vertical joins column-major. -/
def codeOrderPairs (w h : ℕ) : List (ℕ × ℕ) :=
  (List.range h).flatMap (fun r => (List.range (w - 1)).flatMap (fun c =>
    (r * w + c, r * w + c + 1) ::
    (if r < h - 1 then
      [if (r + c) % 2 = 1 then (r * w + c, (r + 1) * w + (c + 1))
       else (r * w + (c + 1), (r + 1) * w + c)]
     else [])))
  ++ (List.range w).flatMap (fun c => (List.range (h - 1)).map (fun r =>
    (r * w + c, (r + 1) * w + c)))

/-- Row index of the grid point with id `i`. -/
def rowOf (w i : ℕ) : ℕ := i / w

/-- Column index of the grid point with id `i`. -/
def colOf (w i : ℕ) : ℕ := i % w

/-- An endpoint-id pair joining two horizontally adjacent grid points. -/
def isHorizontalPair (w : ℕ) (pr : ℕ × ℕ) : Bool :=
  rowOf w pr.2 == rowOf w pr.1 && colOf w pr.2 == colOf w pr.1 + 1

/-- An endpoint-id pair joining two vertically adjacent grid points. -/
def isVerticalPair (w : ℕ) (pr : ℕ × ℕ) : Bool :=
  rowOf w pr.2 == rowOf w pr.1 + 1 && colOf w pr.2 == colOf w pr.1

/-- An endpoint-id pair joining two diagonally adjacent grid points. -/
def isDiagonalPair (w : ℕ) (pr : ℕ × ℕ) : Bool :=
  rowOf w pr.2 == rowOf w pr.1 + 1 &&
  (colOf w pr.2 == colOf w pr.1 + 1 || colOf w pr.1 == colOf w pr.2 + 1)

/-! General list bookkeeping used throughout the development. -/

theorem sumMapConst {α : Type} (l : List α) (k : ℕ) : (l.map (fun _ => k)).sum = l.length * k := by
  induction l with
  | nil => simp
  | cons a l ih => simp [ih, Nat.succ_mul, Nat.add_comm]

theorem lengthFlatMapSum {α β : Type} (l : List α) (f : α → List β) :
    (l.flatMap f).length = (l.map (fun a => (f a).length)).sum := by
  induction l with
  | nil => rfl
  | cons a l ih => simp [List.flatMap_cons, ih]

theorem countPFlatMapSum {α β : Type} (p : β → Bool) (l : List α) (f : α → List β) :
    (l.flatMap f).countP p = (l.map (fun a => (f a).countP p)).sum := by
  induction l with
  | nil => rfl
  | cons a l ih => simp [List.flatMap_cons, List.countP_append, ih]

theorem flatMapCongr {α β : Type} {l : List α} {f g : α → List β}
    (h : ∀ a ∈ l, f a = g a) : l.flatMap f = l.flatMap g := by
  induction l with
  | nil => rfl
  | cons a l ih =>
    simp only [List.flatMap_cons]
    rw [h a (by simp), ih (fun x hx => h x (by simp [hx]))]

theorem lengthFlatMapRangeMap {β : Type} (g : ℕ → ℕ → β) (w h : ℕ) :
    ((List.range h).flatMap (fun a => (List.range w).map (g a))).length = h * w := by
  induction h with
  | zero => simp
  | succ n ih =>
    rw [List.range_succ, List.flatMap_append]
    simp [ih, Nat.succ_mul]

theorem getDFlatMapRangeMap {β : Type} [Inhabited β] (g : ℕ → ℕ → β) (w h r c : ℕ)
    (hr : r < h) (hc : c < w) :
    ((List.range h).flatMap (fun a => (List.range w).map (g a))).getD (r * w + c) default
      = g r c := by
  induction h with
  | zero => omega
  | succ n ih =>
    rw [List.range_succ, List.flatMap_append]
    rcases Nat.lt_or_ge r n with hrn | hrn
    · rw [List.getD_append]
      · exact ih hrn
      · rw [lengthFlatMapRangeMap]
        have h1 : (r + 1) * w ≤ n * w := Nat.mul_le_mul_right w hrn
        have h2 : (r + 1) * w = r * w + w := Nat.succ_mul r w
        omega
    · have hreq : r = n := by omega
      subst hreq
      rw [List.getD_append_right]
      · rw [lengthFlatMapRangeMap]
        have h1 : r * w + c - r * w = c := by omega
        rw [h1]
        simp only [List.flatMap_cons, List.flatMap_nil, List.append_nil]
        rw [List.getD_eq_getElem?_getD, List.getElem?_map, List.getElem?_range hc]
        rfl
      · rw [lengthFlatMapRangeMap]
        omega

theorem sumRangeSplitLast (n a b : ℕ) (hn : 0 < n) :
    ((List.range n).map (fun r => if r < n - 1 then a else b)).sum = (n - 1) * a + b := by
  cases n with
  | zero => omega
  | succ m =>
    rw [List.range_succ, List.map_append, List.sum_append]
    have h1 : (List.range m).map (fun r => if r < m + 1 - 1 then a else b)
        = (List.range m).map (fun _ => a) := by
      apply List.map_congr_left
      intro r hr
      have hrm : r < m := List.mem_range.mp hr
      have hlt : r < m + 1 - 1 := by omega
      rw [if_pos hlt]
    rw [h1, sumMapConst]
    simp

theorem sumRangeIndZero (n k : ℕ) (hn : 0 < n) :
    ((List.range n).map (fun r => if r = 0 then k else 0)).sum = k := by
  cases n with
  | zero => omega
  | succ m =>
    rw [List.range_succ_eq_map]
    simp only [List.map_cons, List.map_map, List.sum_cons, if_pos rfl]
    have h1 : (List.range m).map ((fun r => if r = 0 then k else 0) ∘ Nat.succ)
        = (List.range m).map (fun _ => 0) := by
      apply List.map_congr_left
      intro r _
      simp [Function.comp]
    rw [h1, sumMapConst]
    simp

/-! Indexing facts for the grid the Topology Builder lays out. -/

theorem makePoints_length (w h : ℕ) : (makePoints w h).length = h * w :=
  lengthFlatMapRangeMap _ w h

theorem pointByPosition_makePoints (w h r c : ℕ) (hr : r < h) (hc : c < w) :
    pointByPosition w (makePoints w h) r c = makePoint w h r c :=
  getDFlatMapRangeMap _ w h r c hr hc

/-- The joins `makeModel` stores, reduced to their endpoint-id pairs: exactly
`codeOrderPairs`. -/
theorem makeModel_joins_pairs (sqrtFn : ℚ → ℚ) (w h : ℕ) :
    endpointPairs (makeModel sqrtFn w h).joins = codeOrderPairs w h := by
  unfold makeModel endpointPairs makeJoins codeOrderPairs
  simp only [List.map_append]
  congr 1
  · rw [List.map_flatMap]
    apply flatMapCongr
    intro r hr
    have hrh : r < h := List.mem_range.mp hr
    rw [List.map_flatMap]
    apply flatMapCongr
    intro c hc
    have hcw : c < w - 1 := List.mem_range.mp hc
    have e0 : pointByPosition w (makePoints w h) r c = makePoint w h r c :=
      pointByPosition_makePoints w h r c hrh (by omega)
    have e1 : pointByPosition w (makePoints w h) r (c + 1) = makePoint w h r (c + 1) :=
      pointByPosition_makePoints w h r (c + 1) hrh (by omega)
    rcases Nat.lt_or_ge r (h - 1) with hlast | hlast
    · have e2 : pointByPosition w (makePoints w h) (r + 1) (c + 1)
          = makePoint w h (r + 1) (c + 1) :=
        pointByPosition_makePoints w h (r + 1) (c + 1) (by omega) (by omega)
      have e3 : pointByPosition w (makePoints w h) (r + 1) c = makePoint w h (r + 1) c :=
        pointByPosition_makePoints w h (r + 1) c (by omega) (by omega)
      rcases Nat.decEq ((r + c) % 2) 1 with hodd | hodd
      · simp [if_pos hlast, hodd, e0, e1, e2, e3, makeJoin, makePoint, Nat.add_assoc]
      · simp [if_pos hlast, hodd, e0, e1, e2, e3, makeJoin, makePoint, Nat.add_assoc]
    · have hno : ¬ r < h - 1 := by omega
      simp [if_neg hno, e0, e1, makeJoin, makePoint, Nat.add_assoc]
  · rw [List.map_flatMap]
    apply flatMapCongr
    intro c hc
    have hcw : c < w := List.mem_range.mp hc
    rw [List.map_map]
    apply List.map_congr_left
    intro r hr
    have hrh : r < h - 1 := List.mem_range.mp hr
    have e0 : pointByPosition w (makePoints w h) r c = makePoint w h r c :=
      pointByPosition_makePoints w h r c (by omega) hcw
    have e1 : pointByPosition w (makePoints w h) (r + 1) c = makePoint w h (r + 1) c :=
      pointByPosition_makePoints w h (r + 1) c (by omega) hcw
    simp [Function.comp, e0, e1, makeJoin, makePoint]

/-- Claim C3, corrected: for every grid size, the stored constraint order is
the interleaved one: per row `r`, for each cell `c < columns-1`, the
horizontal constraint `(r,c)→(r,c+1)` immediately followed (when
`r < rows-1`) by the cell's diagonal — `(r,c)→(r+1,c+1)` when `(r+c)` is odd
and `(r,c+1)→(r+1,c)` otherwise — and after all rows the vertical
constraints, column-major. -/
theorem build_order_interleaved (sqrtFn : ℚ → ℚ) (w h : ℕ) :
    endpointPairs (makeModel sqrtFn w h).joins = codeOrderPairs w h :=
  makeModel_joins_pairs sqrtFn w h

/-- Claim C3, counterexample: in the 3×3 model, the join stored at index 1 is
the first cell's diagonal `(0,1)→(1,0)` (point ids 1 and 3), not the second
horizontal join — whereas the spec's claimed order (`specOrderPairs`, all
horizontal first) would put the horizontal `(0,1)→(0,2)` (ids 1 and 2)
there; the stored order differs from the claimed one. -/
theorem build_order_counterexample :
    (endpointPairs (makeModel ratSqrt 3 3).joins)[1]? = some (1, 3) ∧
    (specOrderPairs 3 3)[1]? = some (1, 2) ∧
    endpointPairs (makeModel ratSqrt 3 3).joins ≠ specOrderPairs 3 3 := by
  decide

theorem flatMapConstNil {α β : Type} (l : List α) : l.flatMap (fun _ => ([] : List β)) = [] := by
  induction l with
  | nil => rfl
  | cons a l ih => simp [List.flatMap_cons, ih]

theorem rowOf_id (w r c : ℕ) (hw : 0 < w) (hc : c < w) : rowOf w (r * w + c) = r := by
  unfold rowOf
  rw [Nat.add_comm, Nat.add_mul_div_right c r hw, Nat.div_eq_of_lt hc]
  omega

theorem colOf_id (w r c : ℕ) (hc : c < w) : colOf w (r * w + c) = c := by
  unfold colOf
  rw [Nat.add_comm, Nat.add_mul_mod_self_right]
  exact Nat.mod_eq_of_lt hc

/-- Classification of a horizontal endpoint pair. -/
theorem classify_horizontal (w r c : ℕ) (hc1 : c + 1 < w) :
    isHorizontalPair w (r * w + c, r * w + c + 1) = true ∧
    isVerticalPair w (r * w + c, r * w + c + 1) = false ∧
    isDiagonalPair w (r * w + c, r * w + c + 1) = false := by
  have hw : 0 < w := by omega
  have hc : c < w := by omega
  have e : r * w + c + 1 = r * w + (c + 1) := by omega
  rw [e]
  unfold isHorizontalPair isVerticalPair isDiagonalPair
  simp only [rowOf_id w r (c + 1) hw hc1, rowOf_id w r c hw hc,
    colOf_id w r (c + 1) hc1, colOf_id w r c hc]
  refine ⟨by simp, by simp, by simp⟩

/-- Classification of the odd-parity diagonal endpoint pair. -/
theorem classify_diag_odd (w r c : ℕ) (hc1 : c + 1 < w) :
    isHorizontalPair w (r * w + c, (r + 1) * w + (c + 1)) = false ∧
    isVerticalPair w (r * w + c, (r + 1) * w + (c + 1)) = false ∧
    isDiagonalPair w (r * w + c, (r + 1) * w + (c + 1)) = true := by
  have hw : 0 < w := by omega
  have hc : c < w := by omega
  unfold isHorizontalPair isVerticalPair isDiagonalPair
  simp only [rowOf_id w (r + 1) (c + 1) hw hc1, rowOf_id w r c hw hc,
    colOf_id w (r + 1) (c + 1) hc1, colOf_id w r c hc]
  refine ⟨by simp, by simp [Nat.succ_ne_self], by simp⟩

/-- Classification of the even-parity diagonal endpoint pair. -/
theorem classify_diag_even (w r c : ℕ) (hc1 : c + 1 < w) :
    isHorizontalPair w (r * w + (c + 1), (r + 1) * w + c) = false ∧
    isVerticalPair w (r * w + (c + 1), (r + 1) * w + c) = false ∧
    isDiagonalPair w (r * w + (c + 1), (r + 1) * w + c) = true := by
  have hw : 0 < w := by omega
  have hc : c < w := by omega
  unfold isHorizontalPair isVerticalPair isDiagonalPair
  simp only [rowOf_id w (r + 1) c hw hc, rowOf_id w r (c + 1) hw hc1,
    colOf_id w (r + 1) c hc, colOf_id w r (c + 1) hc1]
  refine ⟨by simp, by simp [Nat.succ_ne_self], by simp⟩

/-- Classification of a vertical endpoint pair. -/
theorem classify_vertical (w r c : ℕ) (hc : c < w) :
    isHorizontalPair w (r * w + c, (r + 1) * w + c) = false ∧
    isVerticalPair w (r * w + c, (r + 1) * w + c) = true ∧
    isDiagonalPair w (r * w + c, (r + 1) * w + c) = false := by
  have hw : 0 < w := by omega
  unfold isHorizontalPair isVerticalPair isDiagonalPair
  simp only [rowOf_id w (r + 1) c hw hc, rowOf_id w r c hw hc,
    colOf_id w (r + 1) c hc, colOf_id w r c hc]
  refine ⟨by simp [Nat.succ_ne_self], by simp, by simp⟩

theorem countPRangeVal (q : ℕ → Bool) (n v : ℕ)
    (h : ∀ i, i < n → (if q i then 1 else 0) = v) :
    (List.range n).countP q = n * v := by
  induction n with
  | zero => simp
  | succ m ih =>
    rw [List.range_succ, List.countP_append, ih (fun i hi => h i (by omega))]
    have hm := h m (by omega)
    simp only [List.countP_cons, List.countP_nil, Nat.zero_add, hm]
    rw [Nat.succ_mul]

theorem countPFlatMapRangeConst {β : Type} (p : β → Bool) (n : ℕ) (f : ℕ → List β) (k : ℕ)
    (hf : ∀ i, i < n → (f i).countP p = k) :
    ((List.range n).flatMap f).countP p = n * k := by
  induction n with
  | zero => simp
  | succ m ih =>
    rw [List.range_succ, List.flatMap_append, List.countP_append,
      ih (fun i hi => hf i (by omega))]
    simp only [List.flatMap_cons, List.flatMap_nil, List.append_nil, hf m (by omega)]
    rw [Nat.succ_mul]

theorem countPFlatMapRangeSplit {β : Type} (p : β → Bool) (n : ℕ) (f : ℕ → List β) (a b : ℕ)
    (hn : 0 < n)
    (hf : ∀ i, i + 1 < n → (f i).countP p = a)
    (hl : ∀ i, i + 1 = n → (f i).countP p = b) :
    ((List.range n).flatMap f).countP p = (n - 1) * a + b := by
  cases n with
  | zero => omega
  | succ m =>
    rw [List.range_succ, List.flatMap_append, List.countP_append,
      countPFlatMapRangeConst p m f a (fun i hi => hf i (by omega))]
    simp only [List.flatMap_cons, List.flatMap_nil, List.append_nil, hl m rfl,
      Nat.succ_sub_one]

/-- Counts every class of joins in the order list `makeModel` produces, given
the value the predicate takes on each of the three geometric pair shapes. -/
theorem codeOrderPairs_countP (w h : ℕ) (hh : 0 < h) (p : ℕ × ℕ → Bool) (nH nD nV : ℕ)
    (hH : ∀ r c, c + 1 < w → (if p (r * w + c, r * w + c + 1) then 1 else 0) = nH)
    (hD : ∀ r c, c + 1 < w →
        (if p (r * w + c, (r + 1) * w + (c + 1)) then 1 else 0) = nD ∧
        (if p (r * w + (c + 1), (r + 1) * w + c) then 1 else 0) = nD)
    (hV : ∀ r c, c < w → (if p (r * w + c, (r + 1) * w + c) then 1 else 0) = nV) :
    (codeOrderPairs w h).countP p
      = h * (w - 1) * nH + (h - 1) * (w - 1) * nD + w * (h - 1) * nV := by
  obtain ⟨m, rfl⟩ : ∃ m, h = m + 1 := ⟨h - 1, by omega⟩
  unfold codeOrderPairs
  rw [List.countP_append]
  have hsplit : ((List.range (m + 1)).flatMap (fun r => (List.range (w - 1)).flatMap (fun c =>
      (r * w + c, r * w + c + 1) ::
      (if r < m + 1 - 1 then
        [if (r + c) % 2 = 1 then (r * w + c, (r + 1) * w + (c + 1))
         else (r * w + (c + 1), (r + 1) * w + c)]
       else [])))).countP p = (m + 1 - 1) * ((w - 1) * (nD + nH)) + (w - 1) * nH := by
    apply countPFlatMapRangeSplit p (m + 1) _ ((w - 1) * (nD + nH)) ((w - 1) * nH) (by omega)
    · intro i hi
      apply countPFlatMapRangeConst
      intro c hc
      have hc' : c + 1 < w := by omega
      have hit : i < m + 1 - 1 := by omega
      rw [if_pos hit]
      simp only [List.countP_cons, List.countP_nil]
      by_cases hpar : (i + c) % 2 = 1
      · rw [if_pos hpar, (hD i c hc').1, hH i c hc']
        omega
      · rw [if_neg hpar, (hD i c hc').2, hH i c hc']
        omega
    · intro i hi
      apply countPFlatMapRangeConst
      intro c hc
      have hc' : c + 1 < w := by omega
      have hit : ¬ i < m + 1 - 1 := by omega
      rw [if_neg hit]
      simp only [List.countP_cons, List.countP_nil, Nat.zero_add]
      exact hH i c hc'
  have hvert : ((List.range w).flatMap (fun c => (List.range (m + 1 - 1)).map (fun r =>
      (r * w + c, (r + 1) * w + c)))).countP p = w * (m * nV) := by
    apply countPFlatMapRangeConst
    intro c hc
    rw [List.countP_map, Nat.succ_sub_one]
    exact countPRangeVal _ m nV (fun i _ => hV i c hc)
  rw [hsplit, hvert, Nat.succ_sub_one]
  ring

theorem codeOrderPairs_countH (w h : ℕ) (hh : 0 < h) :
    (codeOrderPairs w h).countP (isHorizontalPair w) = h * (w - 1) := by
  rw [codeOrderPairs_countP w h hh (isHorizontalPair w) 1 0 0]
  · ring
  · intro r c hc
    rw [(classify_horizontal w r c hc).1]
    rfl
  · intro r c hc
    refine ⟨?_, ?_⟩
    · rw [(classify_diag_odd w r c hc).1]
      rfl
    · rw [(classify_diag_even w r c hc).1]
      rfl
  · intro r c hc
    rw [(classify_vertical w r c hc).1]
    rfl

theorem codeOrderPairs_countD (w h : ℕ) (hh : 0 < h) :
    (codeOrderPairs w h).countP (isDiagonalPair w) = (h - 1) * (w - 1) := by
  rw [codeOrderPairs_countP w h hh (isDiagonalPair w) 0 1 0]
  · ring
  · intro r c hc
    rw [(classify_horizontal w r c hc).2.2]
    rfl
  · intro r c hc
    refine ⟨?_, ?_⟩
    · rw [(classify_diag_odd w r c hc).2.2]
      rfl
    · rw [(classify_diag_even w r c hc).2.2]
      rfl
  · intro r c hc
    rw [(classify_vertical w r c hc).2.2]
    rfl

theorem codeOrderPairs_countV (w h : ℕ) (hh : 0 < h) :
    (codeOrderPairs w h).countP (isVerticalPair w) = w * (h - 1) := by
  rw [codeOrderPairs_countP w h hh (isVerticalPair w) 0 0 1]
  · ring
  · intro r c hc
    rw [(classify_horizontal w r c hc).2.1]
    rfl
  · intro r c hc
    refine ⟨?_, ?_⟩
    · rw [(classify_diag_odd w r c hc).2.1]
      rfl
    · rw [(classify_diag_even w r c hc).2.1]
      rfl
  · intro r c hc
    rw [(classify_vertical w r c hc).2.1]
    rfl

theorem codeOrderPairs_length (w h : ℕ) :
    (codeOrderPairs w h).length = h * (w - 1) + (h - 1) * (w - 1) + w * (h - 1) := by
  cases Nat.eq_zero_or_pos h with
  | inl h0 =>
    subst h0
    simp [codeOrderPairs, flatMapConstNil]
  | inr hpos =>
    have hlen : (codeOrderPairs w h).length = (codeOrderPairs w h).countP (fun _ => true) :=
      (congrFun List.countP_true _).symm
    rw [hlen, codeOrderPairs_countP w h hpos (fun _ => true) 1 1 1]
    · ring
    · intro r c _
      rfl
    · intro r c _
      exact ⟨rfl, rfl⟩
    · intro r c _
      rfl

theorem makePoints_fixed_count (w h : ℕ) (hh : 0 < h) :
    (makePoints w h).countP (fun p => p.isFixed) = w := by
  obtain ⟨m, rfl⟩ : ∃ m, h = m + 1 := ⟨h - 1, by omega⟩
  unfold makePoints
  rw [List.range_succ_eq_map, List.flatMap_cons, List.countP_append, List.flatMap_map]
  have h0 : ((List.range w).map (fun c => makePoint w (m + 1) 0 c)).countP
      (fun p => p.isFixed) = w := by
    rw [List.countP_map]
    have hval := countPRangeVal ((fun p : Point => p.isFixed) ∘ (fun c => makePoint w (m + 1) 0 c))
      w 1 (fun i _ => by simp [Function.comp, makePoint])
    rw [hval]
    omega
  have hrest : ((List.range m).flatMap (fun a =>
      (List.range w).map (fun c => makePoint w (m + 1) (Nat.succ a) c))).countP
      (fun p => p.isFixed) = 0 := by
    have hz := countPFlatMapRangeConst (fun p : Point => p.isFixed) m
      (fun a => (List.range w).map (fun c => makePoint w (m + 1) (Nat.succ a) c)) 0 ?_
    · rw [hz]
      omega
    · intro i _
      rw [List.countP_map]
      have hval := countPRangeVal ((fun p : Point => p.isFixed) ∘
        (fun c => makePoint w (m + 1) (Nat.succ i) c)) w 0
        (fun j _ => by simp [Function.comp, makePoint])
      rw [hval]
      omega
  rw [h0, hrest]
  omega

theorem makePoints_fixed_iff (w h : ℕ) (p : Point) (hp : p ∈ makePoints w h) :
    p.isFixed = decide (p.id < w) := by
  unfold makePoints at hp
  rw [List.mem_flatMap] at hp
  obtain ⟨r, hr, hp⟩ := hp
  rw [List.mem_map] at hp
  obtain ⟨c, hc, rfl⟩ := hp
  have hcw : c < w := List.mem_range.mp hc
  cases r with
  | zero => simp [makePoint, hcw]
  | succ r =>
    have hge : ¬ ((r + 1) * w + c < w) := by
      have hsm : (r + 1) * w = r * w + w := Nat.succ_mul r w
      omega
    simp [makePoint, hge]

/-- Size of the model `makeModel` returns, for every dimensions, the
degenerate ones included. -/
theorem makeModel_sizes (sqrtFn : ℚ → ℚ) (w h : ℕ) :
    (makeModel sqrtFn w h).points.length = w * h ∧
    (makeModel sqrtFn w h).joins.length
      = h * (w - 1) + (h - 1) * (w - 1) + w * (h - 1) := by
  constructor
  · show (makePoints w h).length = w * h
    rw [makePoints_length, Nat.mul_comm]
  · have hlen : (makeModel sqrtFn w h).joins.length
        = (endpointPairs (makeModel sqrtFn w h).joins).length := by
      unfold endpointPairs
      rw [List.length_map]
    rw [hlen, makeModel_joins_pairs, codeOrderPairs_length]

/-- Claim C2, corrected: `makeModel` performs no dimension validation and
raises nothing: for every dimensions, the degenerate ones included, it
returns a topology with `columns × rows` points and the usual join count
(when a dimension is below 2 the corresponding join families are simply
empty and the point coordinates come from a division by zero). -/
theorem makeModel_no_dimension_check (sqrtFn : ℚ → ℚ) (w h : ℕ) :
    (makeModel sqrtFn w h).points.length = w * h ∧
    (makeModel sqrtFn w h).joins.length
      = h * (w - 1) + (h - 1) * (w - 1) + w * (h - 1) :=
  makeModel_sizes sqrtFn w h

/-- Claim C2, counterexample: at `columns = rows = 1` — dimensions the claim
says must fail with `InvalidDimensions` — construction completes and returns
a topology holding one point and no joins at all. -/
theorem makeModel_one_by_one :
    (makeModel ratSqrt 1 1).points.length = 1 ∧ (makeModel ratSqrt 1 1).joins = [] := by
  decide

/-- Claim C4: for columns, rows ≥ 2 the model holds `columns × rows` points,
of which exactly the `columns` points of row 0 (ids below `columns`) are
fixed, and `rows × (columns−1)` horizontal, `columns × (rows−1)` vertical and
`(rows−1) × (columns−1)` diagonal joins, totalling
`rows·(columns−1) + (rows−1)·(columns−1) + columns·(rows−1)` joins. -/
theorem build_counts (sqrtFn : ℚ → ℚ) (w h : ℕ) (hw : 2 ≤ w) (hh : 2 ≤ h) :
    (makeModel sqrtFn w h).points.length = w * h ∧
    (makeModel sqrtFn w h).points.countP (fun p => p.isFixed) = w ∧
    (∀ p ∈ (makeModel sqrtFn w h).points, p.isFixed = decide (p.id < w)) ∧
    (endpointPairs (makeModel sqrtFn w h).joins).countP (isHorizontalPair w) = h * (w - 1) ∧
    (endpointPairs (makeModel sqrtFn w h).joins).countP (isVerticalPair w) = w * (h - 1) ∧
    (endpointPairs (makeModel sqrtFn w h).joins).countP (isDiagonalPair w) = (h - 1) * (w - 1) ∧
    (makeModel sqrtFn w h).joins.length
      = h * (w - 1) + (h - 1) * (w - 1) + w * (h - 1) := by
  refine ⟨(makeModel_sizes sqrtFn w h).1, ?_, ?_, ?_, ?_, ?_,
    (makeModel_sizes sqrtFn w h).2⟩
  · exact makePoints_fixed_count w h (by omega)
  · intro p hp
    exact makePoints_fixed_iff w h p hp
  · rw [makeModel_joins_pairs]
    exact codeOrderPairs_countH w h (by omega)
  · rw [makeModel_joins_pairs]
    exact codeOrderPairs_countV w h (by omega)
  · rw [makeModel_joins_pairs]
    exact codeOrderPairs_countD w h (by omega)

/-- Claim C4, witness: the 3×3 grid has 9 points, 3 of them fixed (row 0),
6 horizontal, 6 vertical and 4 diagonal joins — 16 joins in all. -/
theorem build_counts_witness :
    (2 ≤ 3 ∧ 2 ≤ 3) ∧
    ((makeModel ratSqrt 3 3).points.length = 3 * 3 ∧
     (makeModel ratSqrt 3 3).points.countP (fun p => p.isFixed) = 3 ∧
     (∀ p ∈ (makeModel ratSqrt 3 3).points, p.isFixed = decide (p.id < 3)) ∧
     (endpointPairs (makeModel ratSqrt 3 3).joins).countP (isHorizontalPair 3) = 3 * (3 - 1) ∧
     (endpointPairs (makeModel ratSqrt 3 3).joins).countP (isVerticalPair 3) = 3 * (3 - 1) ∧
     (endpointPairs (makeModel ratSqrt 3 3).joins).countP (isDiagonalPair 3) = (3 - 1) * (3 - 1) ∧
     (makeModel ratSqrt 3 3).joins.length
       = 3 * (3 - 1) + (3 - 1) * (3 - 1) + 3 * (3 - 1)) :=
  ⟨⟨by omega, by omega⟩, build_counts ratSqrt 3 3 (by omega) (by omega)⟩

/-- Claim C5: the time step is clamped to 1/30, so a `tick` with
`deltaTime = 10.0` and a `tick` with `deltaTime = 1/30` from the same state
with the same per-frame force sample produce identical topologies —
positions and previous positions of every point included. -/
theorem tick_clamp (sqrtFn : ℚ → ℚ) (t : Topology) (rand : ℚ) :
    tick sqrtFn t 10 rand = tick sqrtFn t (1 / 30) rand := by
  unfold tick
  rw [min_eq_right (by norm_num : (1 / 30 : ℚ) ≤ 10), min_self]

/-- Claim C7: one relaxation correction of a single constraint between two
free points applies `factor = (restLength − currentLength)/currentLength/2`
and `offset = (A − B)·factor`, adding the offset to endpoint A's position and
subtracting it from endpoint B's. -/
theorem relax_step_formula (sqrtFn : ℚ → ℚ)
    (xa ya pxa pya xb yb pxb pyb rest factor : ℚ)
    (hfac : factor
      = (rest - pointLength sqrtFn (xa - xb, ya - yb))
          / pointLength sqrtFn (xa - xb, ya - yb) / 2) :
    relaxJoin sqrtFn
        [⟨0, xa, ya, pxa, pya, false⟩, ⟨1, xb, yb, pxb, pyb, false⟩] ⟨0, 1, rest⟩
      = [⟨0, xa + (xa - xb) * factor, ya + (ya - yb) * factor, pxa, pya, false⟩,
         ⟨1, xb - (xa - xb) * factor, yb - (ya - yb) * factor, pxb, pyb, false⟩] := by
  subst hfac
  unfold relaxJoin findPoint
  rw [List.find?_cons_of_pos _ (by simp), List.find?_cons_of_neg _ (by simp),
    List.find?_cons_of_pos _ (by simp)]
  unfold difference movePoint
  simp only [Bool.false_eq_true, if_false, List.map_cons, List.map_nil]
  norm_num
  exact ⟨by ring, by ring⟩

/-- Claim C7, witness (concrete scenario 2 of the spec): a constraint with
rest length 1 between free A at (0,0) and free B at (2,0); one correction
moves A to (1/2, 0) — A.x goes from 0 to 0.5 — and B to (3/2, 0). -/
theorem relax_step_formula_witness :
    relaxJoin ratSqrt [⟨0, 0, 0, 0, 0, false⟩, ⟨1, 2, 0, 2, 0, false⟩] ⟨0, 1, 1⟩
      = [⟨0, 1 / 2, 0, 0, 0, false⟩, ⟨1, 3 / 2, 0, 2, 0, false⟩] := by
  have hlen : pointLength ratSqrt ((0 : ℚ) - 2, (0 : ℚ) - 0) = 2 := by
    unfold pointLength ratSqrt
    norm_num
    rw [show Int.toNat 4 = 4 from rfl, show isqrt 4 = 2 from by decide,
      show isqrt 1 = 1 from by decide]
    norm_num
  have h := relax_step_formula ratSqrt 0 0 0 0 2 0 2 0 1 (-(1 / 4))
    (by rw [hlen]; norm_num)
  rw [h]
  norm_num

/-- With a zero denominator the intersection test always returns false: each
of the three possible non-finite coordinate values fails one of the two
inclusive bound checks against it. -/
theorem lineIntersects_den_zero (x1 y1 x2 y2 x3 y3 x4 y4 : ℚ)
    (hden : det (x1 - x2) (y1 - y2) (x3 - x4) (y3 - y4) = 0) :
    lineIntersectsLine x1 y1 x2 y2 x3 y3 x4 y4 = false := by
  unfold lineIntersectsLine intersectionX intersectionY jsDiv
  rw [hden]
  split_ifs <;> simp_all [jsLe, jsGe]

/-- Claim C9, amended: for parallel or collinear segments the denominator
determinant is zero, both computed intersection coordinates are non-finite
(NaN or a signed infinity — NaN only when the corresponding numerator is also
zero), the conjunction of inclusive bounding-box checks evaluates false, and
the test returns false. -/
theorem parallel_segments_no_intersection (x1 y1 x2 y2 x3 y3 x4 y4 : ℚ)
    (hpar : (x1 - x2) * (y3 - y4) = (y1 - y2) * (x3 - x4)) :
    det (x1 - x2) (y1 - y2) (x3 - x4) (y3 - y4) = 0 ∧
    (intersectionX x1 y1 x2 y2 x3 y3 x4 y4).isFinite = false ∧
    (intersectionY x1 y1 x2 y2 x3 y3 x4 y4).isFinite = false ∧
    lineIntersectsLine x1 y1 x2 y2 x3 y3 x4 y4 = false := by
  have hden : det (x1 - x2) (y1 - y2) (x3 - x4) (y3 - y4) = 0 := by
    unfold det
    linarith [hpar]
  refine ⟨hden, ?_, ?_, lineIntersects_den_zero x1 y1 x2 y2 x3 y3 x4 y4 hden⟩
  · unfold intersectionX jsDiv
    rw [hden]
    split_ifs <;> simp_all [JSNum.isFinite]
  · unfold intersectionY jsDiv
    rw [hden]
    split_ifs <;> simp_all [JSNum.isFinite]

/-- Claim C9, witness for the amended statement: the parallel horizontal
segments (0,0)–(1,0) and (0,1)–(1,1) give a zero denominator, two non-finite
coordinates, and a false intersection result. -/
theorem parallel_segments_witness :
    ((0 - 1 : ℚ) * (1 - 1) = (0 - 0 : ℚ) * (0 - 1)) ∧
    (det ((0 : ℚ) - 1) (0 - 0) (0 - 1) (1 - 1) = 0 ∧
     (intersectionX 0 0 1 0 0 1 1 1).isFinite = false ∧
     (intersectionY 0 0 1 0 0 1 1 1).isFinite = false ∧
     lineIntersectsLine 0 0 1 0 0 1 1 1 = false) :=
  ⟨by norm_num, parallel_segments_no_intersection 0 0 1 0 0 1 1 1 (by norm_num)⟩

/-- Claim C9, counterexample: for the parallel segments (0,0)–(1,0) and
(0,1)–(1,1) the denominator is zero, yet the computed x coordinate is
`-Infinity` — not NaN — and the bound check `max(x1,x2) >= x` against it
evaluates true, not false (the test still returns false only because the
companion check `min(x1,x2) <= x` fails). -/
theorem parallel_not_nan_counterexample :
    det ((0 : ℚ) - 1) (0 - 0) (0 - 1) (1 - 1) = 0 ∧
    intersectionX 0 0 1 0 0 1 1 1 = JSNum.ninf ∧
    JSNum.ninf ≠ JSNum.nan ∧
    jsGe (max (0 : ℚ) 1) JSNum.ninf = true ∧
    jsLe (min (0 : ℚ) 1) JSNum.ninf = false ∧
    lineIntersectsLine 0 0 1 0 0 1 1 1 = false := by
  refine ⟨by norm_num [det], ?_, by simp, by rfl, by rfl, ?_⟩
  · unfold intersectionX jsDiv det
    norm_num
  · apply lineIntersects_den_zero
    norm_num [det]

/-- Claim C8: reversing the direction of the first (cut) segment never
changes the result of the intersection test. -/
theorem lineIntersects_symm (x1 y1 x2 y2 x3 y3 x4 y4 : ℚ) :
    lineIntersectsLine x2 y2 x1 y1 x3 y3 x4 y4
      = lineIntersectsLine x1 y1 x2 y2 x3 y3 x4 y4 := by
  by_cases hden : det (x1 - x2) (y1 - y2) (x3 - x4) (y3 - y4) = 0
  · have hden' : det (x2 - x1) (y2 - y1) (x3 - x4) (y3 - y4) = 0 := by
      unfold det at hden ⊢
      linarith
    rw [lineIntersects_den_zero x1 y1 x2 y2 x3 y3 x4 y4 hden,
      lineIntersects_den_zero x2 y2 x1 y1 x3 y3 x4 y4 hden']
  · have hden' : det (x2 - x1) (y2 - y1) (x3 - x4) (y3 - y4)
        = -(det (x1 - x2) (y1 - y2) (x3 - x4) (y3 - y4)) := by
      unfold det
      ring
    have hxnum : det (det x2 y2 x1 y1) (x2 - x1) (det x3 y3 x4 y4) (x3 - x4)
        = -(det (det x1 y1 x2 y2) (x1 - x2) (det x3 y3 x4 y4) (x3 - x4)) := by
      unfold det
      ring
    have hynum : det (det x2 y2 x1 y1) (y2 - y1) (det x3 y3 x4 y4) (y3 - y4)
        = -(det (det x1 y1 x2 y2) (y1 - y2) (det x3 y3 x4 y4) (y3 - y4)) := by
      unfold det
      ring
    have hx : intersectionX x2 y2 x1 y1 x3 y3 x4 y4
        = intersectionX x1 y1 x2 y2 x3 y3 x4 y4 := by
      unfold intersectionX
      rw [hxnum, hden']
      unfold jsDiv
      rw [if_neg (by intro h0; exact hden (by linarith)), if_neg hden]
      rw [neg_div_neg_eq]
    have hy : intersectionY x2 y2 x1 y1 x3 y3 x4 y4
        = intersectionY x1 y1 x2 y2 x3 y3 x4 y4 := by
      unfold intersectionY
      rw [hynum, hden']
      unfold jsDiv
      rw [if_neg (by intro h0; exact hden (by linarith)), if_neg hden]
      rw [neg_div_neg_eq]
    unfold lineIntersectsLine
    rw [hx, hy, min_comm x2 x1, max_comm x2 x1, min_comm y2 y1, max_comm y2 y1]

/-! Fixed-point invariance.  The running hypothesis `∀ q ∈ pts, q.id = p.id →
q = p` says the arena holds, at the fixed point's id, only that point — the
shape every JavaScript heap state has, since an id stands for one object. -/

theorem integrate_id (dt fx fy : ℚ) (q : Point) : (integrate dt fx fy q).id = q.id := by
  unfold integrate
  split_ifs <;> rfl

theorem integrate_isFixed (dt fx fy : ℚ) (q : Point) :
    (integrate dt fx fy q).isFixed = q.isFixed := by
  unfold integrate
  split_ifs <;> rfl

theorem integrate_fixed (dt fx fy : ℚ) (q : Point) (h : q.isFixed = true) :
    integrate dt fx fy q = q := by
  unfold integrate
  rw [if_pos h]

theorem inv_map_integrate (dt fx fy : ℚ) (pts : List Point) (p : Point)
    (hfix : p.isFixed = true)
    (h : ∀ q ∈ pts, q.id = p.id → q = p) :
    ∀ q ∈ pts.map (integrate dt fx fy), q.id = p.id → q = p := by
  intro q hq hid
  rw [List.mem_map] at hq
  obtain ⟨q0, hq0, rfl⟩ := hq
  rw [integrate_id] at hid
  rw [h q0 hq0 hid]
  exact integrate_fixed dt fx fy p hfix

theorem inv_movePoint (pts : List Point) (i : ℕ) (dx dy : ℚ) (p : Point)
    (h : ∀ q ∈ pts, q.id = p.id → q = p)
    (hi : i ≠ p.id) :
    ∀ q ∈ movePoint pts i dx dy, q.id = p.id → q = p := by
  intro q hq hid
  unfold movePoint at hq
  rw [List.mem_map] at hq
  obtain ⟨q0, hq0, rfl⟩ := hq
  by_cases hcase : q0.id = i
  · rw [if_pos hcase] at hid ⊢
    exact absurd (hcase ▸ hid) hi
  · rw [if_neg hcase] at hid ⊢
    exact h q0 hq0 hid

theorem findPoint_mem_id (pts : List Point) (i : ℕ) (a : Point)
    (hfa : findPoint pts i = some a) : a ∈ pts ∧ a.id = i := by
  unfold findPoint at hfa
  refine ⟨List.mem_of_find?_eq_some hfa, ?_⟩
  have := List.find?_some hfa
  exact of_decide_eq_true this

theorem inv_relaxJoin (sqrtFn : ℚ → ℚ) (pts : List Point) (j : Join) (p : Point)
    (hfix : p.isFixed = true)
    (h : ∀ q ∈ pts, q.id = p.id → q = p) :
    ∀ q ∈ relaxJoin sqrtFn pts j, q.id = p.id → q = p := by
  unfold relaxJoin
  cases hfa : findPoint pts j.fromId with
  | none => exact h
  | some a =>
    cases hfb : findPoint pts j.toId with
    | none => exact h
    | some b =>
      have ⟨hamem, haid⟩ := findPoint_mem_id pts j.fromId a hfa
      have ⟨hbmem, hbid⟩ := findPoint_mem_id pts j.toId b hfb
      dsimp only
      have h1 : ∀ q ∈ (if a.isFixed then pts
          else movePoint pts j.fromId
            ((difference (a.x, a.y) (b.x, b.y)).1 *
              ((j.length - pointLength sqrtFn (difference (a.x, a.y) (b.x, b.y)))
                / pointLength sqrtFn (difference (a.x, a.y) (b.x, b.y)) / 2))
            ((difference (a.x, a.y) (b.x, b.y)).2 *
              ((j.length - pointLength sqrtFn (difference (a.x, a.y) (b.x, b.y)))
                / pointLength sqrtFn (difference (a.x, a.y) (b.x, b.y)) / 2))),
          q.id = p.id → q = p := by
        by_cases hafix : a.isFixed
        · rw [if_pos hafix]
          exact h
        · rw [if_neg hafix]
          apply inv_movePoint pts j.fromId _ _ p h
          intro hip
          have : a = p := h a hamem (by rw [haid, hip])
          rw [this] at hafix
          exact hafix hfix
      by_cases hbfix : b.isFixed
      · rw [if_pos hbfix]
        exact h1
      · rw [if_neg hbfix]
        apply inv_movePoint _ j.toId _ _ p h1
        intro hip
        have : b = p := h b hbmem (by rw [hbid, hip])
        rw [this] at hbfix
        exact hbfix hfix

theorem inv_relaxPass (sqrtFn : ℚ → ℚ) (joins : List Join) (pts : List Point) (p : Point)
    (hfix : p.isFixed = true)
    (h : ∀ q ∈ pts, q.id = p.id → q = p) :
    ∀ q ∈ relaxPass sqrtFn pts joins, q.id = p.id → q = p := by
  induction joins generalizing pts with
  | nil => exact h
  | cons j js ih =>
    exact ih (relaxJoin sqrtFn pts j) (inv_relaxJoin sqrtFn pts j p hfix h)

theorem inv_tick (sqrtFn : ℚ → ℚ) (t : Topology) (dt rand : ℚ) (p : Point)
    (hfix : p.isFixed = true)
    (h : ∀ q ∈ t.points, q.id = p.id → q = p) :
    ∀ q ∈ (tick sqrtFn t dt rand).points, q.id = p.id → q = p := by
  unfold tick
  dsimp only
  have h1 := inv_map_integrate (min dt (1 / 30)) (rand * 0.1) 0.8 t.points p hfix h
  generalize t.points.map (integrate (min dt (1 / 30)) (rand * 0.1) 0.8) = pts1 at h1
  induction (List.range ITERS) generalizing pts1 with
  | nil => exact h1
  | cons n ns ih =>
    exact ih (relaxPass sqrtFn pts1 t.joins) (inv_relaxPass sqrtFn t.joins pts1 p hfix h1)

theorem inv_removeJoin (t : Topology) (j : Join) (p : Point)
    (h : ∀ q ∈ t.points, q.id = p.id → q = p) :
    ∀ q ∈ (removeJoin t j).points, q.id = p.id → q = p := by
  intro q hq
  unfold removeJoin at hq
  exact h q (List.mem_filter.mp hq).1

theorem inv_removePoint (t : Topology) (x : Point) (p : Point)
    (h : ∀ q ∈ t.points, q.id = p.id → q = p) :
    ∀ q ∈ (removePoint t x).points, q.id = p.id → q = p := by
  intro q hq
  unfold removePoint at hq
  exact h q (List.mem_filter.mp hq).1

/-- Claim C6: a fixed point is never displaced — across any sequence of
`tick`, `removeJoin` and `removePoint` operations, every point record
carrying the fixed point's identity is still exactly the original point
(same position, same previous position, still fixed). -/
theorem fixed_point_invariant (sqrtFn : ℚ → ℚ) (t : Topology) (ops : List Op) (p : Point)
    (hfix : p.isFixed = true)
    (h : ∀ q ∈ t.points, q.id = p.id → q = p) :
    ∀ q ∈ (applyOps sqrtFn ops t).points, q.id = p.id → q = p := by
  induction ops generalizing t with
  | nil => exact h
  | cons op ops ih =>
    apply ih
    cases op with
    | tick dt rand => exact inv_tick sqrtFn t dt rand p hfix h
    | removeJoin j => exact inv_removeJoin t j p h
    | removePoint x => exact inv_removePoint t x p h

/-- Claim C6, witness: a topology with one fixed point at the origin and one
free point, tied by one constraint; after a tick, a tear of that constraint
and a removal of the free point, every record with the fixed point's id is
still the original fixed point. -/
theorem fixed_point_invariant_witness :
    ((⟨0, 0, 0, 0, 0, true⟩ : Point).isFixed = true ∧
     (∀ q ∈ (Topology.mk [⟨0, 0, 0, 0, 0, true⟩, ⟨1, 1, 0, 1, 0, false⟩] [⟨0, 1, 1⟩]).points,
        q.id = (⟨0, 0, 0, 0, 0, true⟩ : Point).id → q = ⟨0, 0, 0, 0, 0, true⟩)) ∧
    (∀ q ∈ (applyOps ratSqrt
        [Op.tick 1 (1 / 2), Op.removeJoin ⟨0, 1, 1⟩, Op.removePoint ⟨1, 1, 0, 1, 0, false⟩]
        (Topology.mk [⟨0, 0, 0, 0, 0, true⟩, ⟨1, 1, 0, 1, 0, false⟩] [⟨0, 1, 1⟩])).points,
      q.id = (⟨0, 0, 0, 0, 0, true⟩ : Point).id → q = ⟨0, 0, 0, 0, 0, true⟩) :=
  ⟨⟨rfl, by decide⟩,
   fixed_point_invariant ratSqrt
     (Topology.mk [⟨0, 0, 0, 0, 0, true⟩, ⟨1, 1, 0, 1, 0, false⟩] [⟨0, 1, 1⟩])
     [Op.tick 1 (1 / 2), Op.removeJoin ⟨0, 1, 1⟩, Op.removePoint ⟨1, 1, 0, 1, 0, false⟩]
     ⟨0, 0, 0, 0, 0, true⟩ rfl (by decide)⟩

/-! Frame conditions of `tick`. -/

theorem frameR_refl (p : Point) : FrameR p p := ⟨rfl, rfl, fun _ => rfl⟩

theorem frameR_trans {a b c : Point} (h1 : FrameR a b) (h2 : FrameR b c) : FrameR a c := by
  obtain ⟨i1, f1, u1⟩ := h1
  obtain ⟨i2, f2, u2⟩ := h2
  refine ⟨i2.trans i1, f2.trans f1, fun hf => ?_⟩
  rw [u2 (f1.trans hf), u1 hf]

theorem forall₂_frameR_refl (l : List Point) : List.Forall₂ FrameR l l := by
  induction l with
  | nil => exact List.Forall₂.nil
  | cons a l ih => exact List.Forall₂.cons (frameR_refl a) ih

theorem forall₂_frameR_trans {l1 l2 l3 : List Point}
    (h1 : List.Forall₂ FrameR l1 l2) (h2 : List.Forall₂ FrameR l2 l3) :
    List.Forall₂ FrameR l1 l3 := by
  induction h1 generalizing l3 with
  | nil => cases h2; exact List.Forall₂.nil
  | cons hab h1' ih =>
    cases h2 with
    | cons hbc h2' => exact List.Forall₂.cons (frameR_trans hab hbc) (ih h2')

theorem forall₂_frameR_map (l : List Point) (f : Point → Point)
    (hf : ∀ p ∈ l, FrameR p (f p)) : List.Forall₂ FrameR l (l.map f) := by
  induction l with
  | nil => exact List.Forall₂.nil
  | cons a l ih =>
    exact List.Forall₂.cons (hf a (by simp))
      (ih (fun p hp => hf p (by simp [hp])))

theorem forall₂_exists_of_mem_right {R : Point → Point → Prop} {l l' : List Point}
    (h : List.Forall₂ R l l') {q : Point} (hq : q ∈ l') : ∃ p ∈ l, R p q := by
  induction h with
  | nil => cases hq
  | cons hab h ih =>
    rcases List.mem_cons.mp hq with rfl | hq'
    · exact ⟨_, by simp, hab⟩
    · obtain ⟨p, hp, hr⟩ := ih hq'
      exact ⟨p, by simp [hp], hr⟩

theorem wf_map (pts : List Point) (f : Point → Point)
    (hid : ∀ x, (f x).id = x.id)
    (h : ∀ q ∈ pts, ∀ q' ∈ pts, q.id = q'.id → q = q') :
    ∀ q ∈ pts.map f, ∀ q' ∈ pts.map f, q.id = q'.id → q = q' := by
  intro q hq q' hq' hids
  rw [List.mem_map] at hq hq'
  obtain ⟨x, hx, rfl⟩ := hq
  obtain ⟨x', hx', rfl⟩ := hq'
  rw [hid x, hid x'] at hids
  rw [h x hx x' hx' hids]

theorem movePoint_eq_map (pts : List Point) (i : ℕ) (dx dy : ℚ) :
    movePoint pts i dx dy
      = pts.map (fun q => if q.id = i then { q with x := q.x + dx, y := q.y + dy } else q) :=
  rfl

theorem movePoint_point_id (i : ℕ) (dx dy : ℚ) (q : Point) :
    (if q.id = i then { q with x := q.x + dx, y := q.y + dy } else q).id = q.id := by
  split_ifs <;> rfl

theorem frameR_movePoint (pts : List Point) (i : ℕ) (dx dy : ℚ)
    (hnofix : ∀ q ∈ pts, q.id = i → q.isFixed = false) :
    List.Forall₂ FrameR pts (movePoint pts i dx dy) := by
  rw [movePoint_eq_map]
  apply forall₂_frameR_map
  intro p hp
  by_cases hc : p.id = i
  · rw [if_pos hc]
    refine ⟨rfl, rfl, fun hf => ?_⟩
    rw [hnofix p hp hc] at hf
    cases hf
  · rw [if_neg hc]
    exact frameR_refl p

theorem frame_relaxJoin (sqrtFn : ℚ → ℚ) (pts : List Point) (j : Join)
    (hwf : ∀ q ∈ pts, ∀ q' ∈ pts, q.id = q'.id → q = q') :
    List.Forall₂ FrameR pts (relaxJoin sqrtFn pts j) ∧
    (∀ q ∈ relaxJoin sqrtFn pts j, ∀ q' ∈ relaxJoin sqrtFn pts j, q.id = q'.id → q = q') := by
  unfold relaxJoin
  cases hfa : findPoint pts j.fromId with
  | none => exact ⟨forall₂_frameR_refl pts, hwf⟩
  | some a =>
    cases hfb : findPoint pts j.toId with
    | none => exact ⟨forall₂_frameR_refl pts, hwf⟩
    | some b =>
      have ⟨hamem, haid⟩ := findPoint_mem_id pts j.fromId a hfa
      have ⟨hbmem, hbid⟩ := findPoint_mem_id pts j.toId b hfb
      dsimp only
      set dx := (difference (a.x, a.y) (b.x, b.y)).1 *
        ((j.length - pointLength sqrtFn (difference (a.x, a.y) (b.x, b.y)))
          / pointLength sqrtFn (difference (a.x, a.y) (b.x, b.y)) / 2) with hdx
      set dy := (difference (a.x, a.y) (b.x, b.y)).2 *
        ((j.length - pointLength sqrtFn (difference (a.x, a.y) (b.x, b.y)))
          / pointLength sqrtFn (difference (a.x, a.y) (b.x, b.y)) / 2) with hdy
      have step1 : List.Forall₂ FrameR pts
            (if a.isFixed then pts else movePoint pts j.fromId dx dy) ∧
          (∀ q ∈ (if a.isFixed then pts else movePoint pts j.fromId dx dy),
            ∀ q' ∈ (if a.isFixed then pts else movePoint pts j.fromId dx dy),
            q.id = q'.id → q = q') := by
        by_cases hafix : a.isFixed
        · rw [if_pos hafix]
          exact ⟨forall₂_frameR_refl pts, hwf⟩
        · rw [if_neg hafix]
          constructor
          · apply frameR_movePoint
            intro q hq hqi
            have : q = a := hwf q hq a hamem (by rw [hqi, haid])
            rw [this]
            exact Bool.eq_false_iff.mpr hafix
          · rw [movePoint_eq_map]
            exact wf_map pts _ (movePoint_point_id j.fromId dx dy) hwf
      obtain ⟨hrel1, hwf1⟩ := step1
      by_cases hbfix : b.isFixed
      · rw [if_pos hbfix]
        exact ⟨hrel1, hwf1⟩
      · rw [if_neg hbfix]
        constructor
        · apply forall₂_frameR_trans hrel1
          apply frameR_movePoint
          intro q hq hqi
          obtain ⟨p, hp, hpr⟩ := forall₂_exists_of_mem_right hrel1 hq
          have hpid : p.id = j.toId := by rw [← hpr.1, hqi]
          have : p = b := hwf p hp b hbmem (by rw [hpid, hbid])
          rw [hpr.2.1, this]
          exact Bool.eq_false_iff.mpr hbfix
        · rw [movePoint_eq_map]
          exact wf_map _ _ (movePoint_point_id j.toId (-dx) (-dy)) hwf1

theorem frame_relaxPass (sqrtFn : ℚ → ℚ) (joins : List Join) (pts : List Point)
    (hwf : ∀ q ∈ pts, ∀ q' ∈ pts, q.id = q'.id → q = q') :
    List.Forall₂ FrameR pts (relaxPass sqrtFn pts joins) ∧
    (∀ q ∈ relaxPass sqrtFn pts joins, ∀ q' ∈ relaxPass sqrtFn pts joins,
      q.id = q'.id → q = q') := by
  induction joins generalizing pts with
  | nil => exact ⟨forall₂_frameR_refl pts, hwf⟩
  | cons j js ih =>
    obtain ⟨hrel, hwf'⟩ := frame_relaxJoin sqrtFn pts j hwf
    obtain ⟨hrel', hwf''⟩ := ih (relaxJoin sqrtFn pts j) hwf'
    exact ⟨forall₂_frameR_trans hrel hrel', hwf''⟩

/-- Claim C10: a `tick` leaves the join list — endpoint references and rest
lengths included — completely unchanged, and relates the point list pointwise
to the previous one: same length, same ids, same fixed flags, with fixed
points' records untouched; only the coordinates of non-fixed points change.
The hypothesis says distinct list entries never share an id — the shape of
every JavaScript heap state, where an id stands for one object. -/
theorem tick_frame_effect (sqrtFn : ℚ → ℚ) (t : Topology) (dt rand : ℚ)
    (hwf : ∀ q ∈ t.points, ∀ q' ∈ t.points, q.id = q'.id → q = q') :
    (tick sqrtFn t dt rand).joins = t.joins ∧
    (tick sqrtFn t dt rand).points.length = t.points.length ∧
    List.Forall₂ FrameR t.points (tick sqrtFn t dt rand).points := by
  have hmain : List.Forall₂ FrameR t.points (tick sqrtFn t dt rand).points := by
    unfold tick
    dsimp only
    have hstep0 : List.Forall₂ FrameR t.points
        (t.points.map (integrate (min dt (1 / 30)) (rand * 0.1) 0.8)) := by
      apply forall₂_frameR_map
      intro p _
      exact ⟨integrate_id _ _ _ p, integrate_isFixed _ _ _ p,
        fun hf => integrate_fixed _ _ _ p hf⟩
    have hwf0 : ∀ q ∈ t.points.map (integrate (min dt (1 / 30)) (rand * 0.1) 0.8),
        ∀ q' ∈ t.points.map (integrate (min dt (1 / 30)) (rand * 0.1) 0.8),
        q.id = q'.id → q = q' :=
      wf_map t.points _ (integrate_id _ _ _) hwf
    generalize t.points.map (integrate (min dt (1 / 30)) (rand * 0.1) 0.8) = pts1
      at hstep0 hwf0
    induction (List.range ITERS) generalizing pts1 with
    | nil => exact hstep0
    | cons n ns ih =>
      obtain ⟨hrel, hwf'⟩ := frame_relaxPass sqrtFn t.joins pts1 hwf0
      exact ih (relaxPass sqrtFn pts1 t.joins) (forall₂_frameR_trans hstep0 hrel) hwf'
  refine ⟨rfl, ?_, hmain⟩
  exact (List.Forall₂.length_eq hmain).symm

/-- Claim C10, witness: the frame conditions at a concrete two-point,
one-join topology and a concrete tick. -/
theorem tick_frame_effect_witness :
    ((∀ q ∈ (Topology.mk [⟨0, 0, 0, 0, 0, true⟩, ⟨1, 1, 0, 1, 0, false⟩] [⟨0, 1, 1⟩]).points,
       ∀ q' ∈ (Topology.mk [⟨0, 0, 0, 0, 0, true⟩, ⟨1, 1, 0, 1, 0, false⟩] [⟨0, 1, 1⟩]).points,
       q.id = q'.id → q = q')) ∧
    ((tick ratSqrt (Topology.mk [⟨0, 0, 0, 0, 0, true⟩, ⟨1, 1, 0, 1, 0, false⟩] [⟨0, 1, 1⟩])
        1 (1 / 2)).joins
      = (Topology.mk [⟨0, 0, 0, 0, 0, true⟩, ⟨1, 1, 0, 1, 0, false⟩] [⟨0, 1, 1⟩]).joins ∧
     (tick ratSqrt (Topology.mk [⟨0, 0, 0, 0, 0, true⟩, ⟨1, 1, 0, 1, 0, false⟩] [⟨0, 1, 1⟩])
        1 (1 / 2)).points.length
      = (Topology.mk [⟨0, 0, 0, 0, 0, true⟩, ⟨1, 1, 0, 1, 0, false⟩] [⟨0, 1, 1⟩]).points.length ∧
     List.Forall₂ FrameR
       (Topology.mk [⟨0, 0, 0, 0, 0, true⟩, ⟨1, 1, 0, 1, 0, false⟩] [⟨0, 1, 1⟩]).points
       (tick ratSqrt (Topology.mk [⟨0, 0, 0, 0, 0, true⟩, ⟨1, 1, 0, 1, 0, false⟩] [⟨0, 1, 1⟩])
         1 (1 / 2)).points) :=
  ⟨by decide,
   tick_frame_effect ratSqrt
     (Topology.mk [⟨0, 0, 0, 0, 0, true⟩, ⟨1, 1, 0, 1, 0, false⟩] [⟨0, 1, 1⟩])
     1 (1 / 2) (by decide)⟩

/-! The tear-engine cleanup. -/

/-- The orphan-cleanup step of `removeJoin` never removes any point, whatever
the topology: the final filter's JavaScript `in` test is constantly false. -/
theorem removeJoin_points_unchanged (t : Topology) (j : Join) :
    (removeJoin t j).points = t.points := by
  unfold removeJoin
  dsimp only
  simp [jsInArray]

/-- Claim C1 (code bug), evaluated at the failing input: removing the only
constraint of a two-free-point topology empties the join list but keeps both
now-orphaned points in the point list — the cleanup's membership test (the
JavaScript `in` operator applied to an array of objects) is always false,
and its reference-count filter selects points whose remaining-join count is
**not** zero besides, so no point is ever pruned. -/
theorem removeJoin_keeps_orphans :
    (removeJoin (Topology.mk [⟨0, 0, 0, 0, 0, false⟩, ⟨1, 1, 0, 1, 0, false⟩] [⟨0, 1, 1⟩])
        ⟨0, 1, 1⟩).joins = [] ∧
    (removeJoin (Topology.mk [⟨0, 0, 0, 0, 0, false⟩, ⟨1, 1, 0, 1, 0, false⟩] [⟨0, 1, 1⟩])
        ⟨0, 1, 1⟩).points
      = [⟨0, 0, 0, 0, 0, false⟩, ⟨1, 1, 0, 1, 0, false⟩] := by
  decide

end VerletCloth
